import Mathlib

/-
  Verification development for the Collaboration-Canvas server core.

  The definitions below are a shallow embedding of the server modules:
  - the stroke admission check StateManager.validateStroke, embedded over a
    small model of loosely typed runtime values (JSVal);
  - the per-room projection of the canonical, userStacks-based StateManager
    (undo, redo, canUserUndo, canUserRedo, clearRedoHistory) together with
    the stroke-append path of the server handlers;
  - the RoomManager registry (getRoom, addUser, removeUser with its delayed
    eviction check, addStroke) and the combined server state used by the
    room-destruction and clearRoomState analyses.

  Maps are embedded as total functions with a default value where only the
  contents of entries are observable, and timestamps, generated ids and the
  eviction timer are made explicit parameters or returned data.
-/

/-- Model of a loosely typed runtime value, as inspected by the stroke
admission check: null, undefined, booleans, numbers, strings, plain objects
(association lists of named fields) and arrays. Numbers are modelled as
integers; the admission check only compares them against integer bounds. -/
inductive JSVal where
  | vNull : JSVal
  | vUndefined : JSVal
  | vBool (b : Bool) : JSVal
  | vNum (n : Int) : JSVal
  | vStr (s : String) : JSVal
  | vObj (fields : List (String × JSVal)) : JSVal
  | vArr (elems : List JSVal) : JSVal

/-- Truthiness of a runtime value: null, undefined, false, 0 and the empty
string are falsy, everything else (including every object and array) is
truthy. -/
def JSVal.truthy : JSVal → Bool
  | .vNull => false
  | .vUndefined => false
  | .vBool b => b
  | .vNum n => n != 0
  | .vStr s => s != ""
  | .vObj _ => true
  | .vArr _ => true

/-- Result of the typeof operator on a modelled value. -/
def JSVal.typeofStr : JSVal → String
  | .vNull => "object"
  | .vUndefined => "undefined"
  | .vBool _ => "boolean"
  | .vNum _ => "number"
  | .vStr _ => "string"
  | .vObj _ => "object"
  | .vArr _ => "object"

/-- Property access v.k. Reading a property of null or undefined throws a
TypeError, modelled as none. Reading a missing property of an object, or a
named property of a primitive or array, yields undefined. -/
def JSVal.getProp : JSVal → String → Option JSVal
  | .vNull, _ => none
  | .vUndefined, _ => none
  | .vObj fields, k => some (((fields.find? (fun p => p.1 == k)).map Prod.snd).getD .vUndefined)
  | _, _ => some .vUndefined

/-- Whether a value is an array, as tested by Array.isArray. -/
def JSVal.isArray : JSVal → Bool
  | .vArr _ => true
  | _ => false

/-- The per-point loop of StateManager.validateStroke: for each point,
check that point.x and point.y are numbers, then that both coordinates lie
in [-10000, 10000]. Returns none when a property read throws (a null or
undefined element), some false on the first rejected point, some true when
every point passes. -/
def validatePoints : List JSVal → Option Bool
  | [] => some true
  | p :: ps =>
    match p.getProp "x" with
    | none => none
    | some px =>
      match px with
      | .vNum x =>
        match p.getProp "y" with
        | none => none
        | some py =>
          match py with
          | .vNum y =>
            if x < -10000 || x > 10000 || y < -10000 || y > 10000 then some false
            else validatePoints ps
          | _ => some false
      | _ => some false

/-- StateManager.validateStroke: reject when the candidate is falsy or not
of object type; reject when color is falsy, width is falsy, or points is
not an array; reject an empty points array; otherwise run the per-point
checks. Returns none when the per-point loop throws. -/
def validateStroke (stroke : JSVal) : Option Bool :=
  if !stroke.truthy then some false
  else if stroke.typeofStr != "object" then some false
  else
    match stroke.getProp "color", stroke.getProp "width", stroke.getProp "points" with
    | some color, some width, some points =>
      if !color.truthy || !width.truthy || !points.isArray then some false
      else
        match points with
        | .vArr elems =>
          if elems.length == 0 then some false
          else validatePoints elems
        | _ => some false
    | _, _, _ => none

/-- A stroke as stamped by RoomManager.addStroke: the submitted payload
(color, width, points) enriched with a generated id, the author id and the
append timestamp. -/
structure Stroke where
  id : String
  userId : String
  color : String
  width : Int
  points : List (Int × Int)
  timestamp : Nat
deriving DecidableEq, Repr

/-- The per-user entry of the StateManager userStacks map: the undo stack
holds strokes removed by undo (most recent last), the redo stack is the
vestigial, unused companion field kept by the constructor. -/
structure UserStacks where
  undoStack : List Stroke
  redoStack : List Stroke
deriving DecidableEq, Repr

/-- The entry created by initializeUserStacks: two empty stacks. -/
def UserStacks.empty : UserStacks := ⟨[], []⟩

/-- Projection of the server state onto one fixed room: the room stroke log
together with the userStacks entries for that room. The inner map of user id
to stacks is embedded as a total function whose default is the empty entry,
under which the lazy initializeUserStacks step is the identity. -/
structure RoomState where
  strokes : List Stroke
  userStacks : String → UserStacks

/-- The room state a freshly created room projects to: no strokes, and an
entirely empty userStacks map. -/
def RoomState.empty : RoomState := ⟨[], fun _ => UserStacks.empty⟩

/-- Pointwise update of the embedded user-to-stacks map. -/
def setStacks (f : String → UserStacks) (u : String) (st : UserStacks) :
    String → UserStacks :=
  fun v => if v = u then st else f v

/-- The backward scan of StateManager.undo: walk the log from the end
toward the start and remove the first stroke whose userId matches. Returns
the log with that stroke spliced out together with the removed stroke, or
none when the user has no stroke in the log. -/
def removeLastByUser (userId : String) : List Stroke → Option (List Stroke × Stroke)
  | [] => none
  | s :: rest =>
    match removeLastByUser userId rest with
    | some (rest₁, removed) => some (s :: rest₁, removed)
    | none => if s.userId = userId then some (rest, s) else none

/-- StateManager.undo for one room: locate the most recent stroke of the
user, splice it out of the log, push it onto the undo stack of that user.
When the user has no stroke, the state is returned unchanged and the result
is absent. -/
def StateManager.undo (room : RoomState) (userId : String) : RoomState × Option Stroke :=
  match removeLastByUser userId room.strokes with
  | none => (room, none)
  | some (strokes₁, removed) =>
    ({ strokes := strokes₁,
       userStacks := setStacks room.userStacks userId
         { room.userStacks userId with
           undoStack := (room.userStacks userId).undoStack ++ [removed] } },
     some removed)

/-- StateManager.redo for one room: pop the most recently undone stroke
from the undo stack of the user (absent result when the stack is empty),
append it back to the log and record it on the vestigial redo stack. -/
def StateManager.redo (room : RoomState) (userId : String) : RoomState × Option Stroke :=
  let us := room.userStacks userId
  match us.undoStack.getLast? with
  | none => (room, none)
  | some stroke =>
    ({ strokes := room.strokes ++ [stroke],
       userStacks := setStacks room.userStacks userId
         { undoStack := us.undoStack.dropLast,
           redoStack := us.redoStack ++ [stroke] } },
     some stroke)

/-- StateManager.canUserUndo: true exactly when the room log holds at least
one stroke of the user; recomputed from the live log on every call. -/
def StateManager.canUserUndo (room : RoomState) (userId : String) : Bool :=
  room.strokes.any (fun s => s.userId == userId)

/-- StateManager.canUserRedo: true exactly when the undo stack of the user
is non-empty. -/
def StateManager.canUserRedo (room : RoomState) (userId : String) : Bool :=
  !(room.userStacks userId).undoStack.isEmpty

/-- StateManager.clearRedoHistory with a user id: reset both stacks of that
user to empty; entries of other users are untouched. -/
def StateManager.clearRedoHistoryUser (room : RoomState) (userId : String) : RoomState :=
  { room with userStacks := setStacks room.userStacks userId UserStacks.empty }

/-- StateManager.clearRedoHistory without a user id: drop the whole
userStacks entry of the room, leaving every user with empty stacks. -/
def StateManager.clearRedoHistoryRoom (room : RoomState) : RoomState :=
  { room with userStacks := fun _ => UserStacks.empty }

/-- The submitted stroke payload after validation: color, width, points. -/
structure StrokeInput where
  color : String
  width : Int
  points : List (Int × Int)
deriving DecidableEq, Repr

/-- The metadata stamping of RoomManager.addStroke: spread the payload and
set the generated id, the author id and the current timestamp. -/
def stampStroke (input : StrokeInput) (userId id : String) (now : Nat) : Stroke :=
  { id := id, userId := userId, color := input.color, width := input.width,
    points := input.points, timestamp := now }

/-- The stroke event handler of the server after validateStroke has
accepted the payload: clear the redo history of the submitting user, then
append the stamped stroke to the room log via RoomManager.addStroke. The
generated id and the clock reading are explicit parameters. -/
def handleStroke (room : RoomState) (userId : String) (input : StrokeInput)
    (id : String) (now : Nat) : RoomState :=
  let cleared := StateManager.clearRedoHistoryUser room userId
  { cleared with strokes := cleared.strokes ++ [stampStroke input userId id now] }

/-- The clear-canvas handler of the server: remove from the log every
stroke whose author is the payload user id, then clear the redo history of
the requesting socket. The code reads the author from the payload and the
history key from the socket, so the two ids are separate parameters. -/
def clearCanvasUser (room : RoomState) (payloadUserId socketId : String) : RoomState :=
  StateManager.clearRedoHistoryUser
    { room with strokes := room.strokes.filter (fun s => s.userId != payloadUserId) }
    socketId


/-- A room object of the RoomManager registry: id, stroke log, cursor map,
membership set (embedded as a duplicate-free insertion-ordered list, which
is all the code observes through add, delete and size) and the creation
timestamp. -/
structure Room where
  id : String
  strokes : List Stroke
  cursors : String → Option (Int × Int)
  users : List String
  createdAt : Nat

/-- The top-level rooms map of the RoomManager, embedded as a partial
lookup function: none models the absence of an entry. -/
abbrev Registry := String → Option Room

/-- The empty registry of a freshly constructed RoomManager. -/
def Registry.empty : Registry := fun _ => none

/-- Write one entry of the rooms map. -/
def setRoom (rooms : Registry) (roomId : String) (room : Room) : Registry :=
  fun k => if k = roomId then some room else rooms k

/-- Delete one entry of the rooms map. -/
def deleteRoom (rooms : Registry) (roomId : String) : Registry :=
  fun k => if k = roomId then none else rooms k

/-- The room object a fresh getRoom call allocates: empty log, empty
cursor map, empty membership, creation time stamped from the clock. -/
def freshRoom (roomId : String) (now : Nat) : Room :=
  { id := roomId, strokes := [], cursors := fun _ => none, users := [], createdAt := now }

/-- RoomManager.getRoom: return the existing room, or allocate a fresh
empty one and record it. The clock reading for createdAt is an explicit
parameter. -/
def RoomManager.getRoom (rooms : Registry) (roomId : String) (now : Nat) :
    Registry × Room :=
  match rooms roomId with
  | some room => (rooms, room)
  | none =>
    let room := freshRoom roomId now
    (setRoom rooms roomId room, room)

/-- RoomManager.addUser: get or create the room, then add the user id to
the membership set (a set add: appended only when not already present). -/
def RoomManager.addUser (rooms : Registry) (roomId userId : String) (now : Nat) :
    Registry :=
  let gotten := RoomManager.getRoom rooms roomId now
  let room := gotten.2
  let room₁ :=
    { room with users := if userId ∈ room.users then room.users else room.users ++ [userId] }
  setRoom gotten.1 roomId room₁

/-- The fixed grace period of the empty-room cleanup, in milliseconds:
the 5 * 60 * 1000 delay handed to the one-shot timer. -/
def CLEANUP_DELAY_MS : Nat := 5 * 60 * 1000

/-- RoomManager.removeUser: a no-op on an unknown room; otherwise delete
the user from the membership set and drop the cached cursor, and when the
membership has become empty, schedule the one-shot eviction check after the
fixed grace period. The scheduling side effect is returned as data: some
delay when a check was scheduled, none otherwise. -/
def RoomManager.removeUser (rooms : Registry) (roomId userId : String) :
    Registry × Option Nat :=
  match rooms roomId with
  | none => (rooms, none)
  | some room =>
    let room₁ :=
      { room with
        users := room.users.filter (fun u => u ≠ userId),
        cursors := fun k => if k = userId then none else room.cursors k }
    let rooms₁ := setRoom rooms roomId room₁
    if room₁.users.isEmpty then (rooms₁, some CLEANUP_DELAY_MS) else (rooms₁, none)

/-- The body of the eviction timer scheduled by removeUser: re-read the
registry at fire time and delete the room only when it still exists and its
membership is still empty. -/
def RoomManager.evictionCheck (rooms : Registry) (roomId : String) : Registry :=
  match rooms roomId with
  | some room => if room.users.isEmpty then deleteRoom rooms roomId else rooms
  | none => rooms

/-- RoomManager.addStroke at registry level: get or create the room, stamp
the payload with id, author and timestamp, and append it to the room log. -/
def RoomManager.addStroke (rooms : Registry) (roomId : String) (input : StrokeInput)
    (userId id : String) (now : Nat) : Registry × Stroke :=
  let gotten := RoomManager.getRoom rooms roomId now
  let room := gotten.2
  let stamped := stampStroke input userId id now
  (setRoom gotten.1 roomId { room with strokes := room.strokes ++ [stamped] }, stamped)

/-- The stroke log currently recorded for a room id, empty when the room
does not exist. -/
def roomStrokes (rooms : Registry) (roomId : String) : List Stroke :=
  match rooms roomId with
  | some room => room.strokes
  | none => []

/-- The combined state of the two server singletons: the RoomManager rooms
map and the StateManager userStacks map (room id, then user id, to the
stacks entry, embedded as a total function with empty default). -/
structure ServerState where
  rooms : Registry
  userStacks : String → String → UserStacks

/-- The state of a freshly started server: no rooms, no stacks. -/
def ServerState.empty : ServerState :=
  { rooms := Registry.empty, userStacks := fun _ _ => UserStacks.empty }

/-- StateManager.undo at server level: getRoom (creating the room when it
is absent), run the per-room undo on the room log and the userStacks
entries of that room, and write both back. -/
def serverUndo (sys : ServerState) (roomId userId : String) (now : Nat) :
    ServerState × Option Stroke :=
  let gotten := RoomManager.getRoom sys.rooms roomId now
  let room := gotten.2
  let res := StateManager.undo ⟨room.strokes, sys.userStacks roomId⟩ userId
  ({ rooms := setRoom gotten.1 roomId { room with strokes := res.1.strokes },
     userStacks := fun rid =>
       if rid = roomId then res.1.userStacks else sys.userStacks rid },
   res.2)

/-- The eviction timer at server level: the scheduled callback touches only
the RoomManager rooms map and never the StateManager userStacks map. -/
def serverEvictionCheck (sys : ServerState) (roomId : String) : ServerState :=
  { sys with rooms := RoomManager.evictionCheck sys.rooms roomId }

/-- A thrown runtime error. -/
inductive JsError where
  | typeError : JsError
deriving DecidableEq, Repr

/-- Reading this.undoHistory on the userStacks-based StateManager: its
constructor assigns only this.userStacks, so the property read yields
undefined, modelled as none. -/
def StateManager.undoHistoryProp : Option Unit := none

/-- Reading this.redoHistory on the userStacks-based StateManager: also
never initialized by the constructor. -/
def StateManager.redoHistoryProp : Option Unit := none

/-- A call m.delete(key) where m may be undefined: calling a method of
undefined throws a TypeError. -/
def jsMapDelete (m : Option Unit) (_key : String) : Except JsError Unit :=
  match m with
  | none => .error JsError.typeError
  | some _ => .ok ()

/-- StateManager.clearRoomState: getRoom (creating the room when absent),
assign an empty array to the room stroke log, then call delete on
this.undoHistory and this.redoHistory. The pair returned is the server
state after the statements that did execute, together with the error the
call threw, if any; the in-place log mutation persists even when a later
statement throws. -/
def StateManager.clearRoomState (sys : ServerState) (roomId : String) (now : Nat) :
    ServerState × Option JsError :=
  let gotten := RoomManager.getRoom sys.rooms roomId now
  let room := gotten.2
  let sys₁ : ServerState :=
    { sys with rooms := setRoom gotten.1 roomId { room with strokes := [] } }
  match jsMapDelete StateManager.undoHistoryProp roomId with
  | .error e => (sys₁, some e)
  | .ok _ =>
    match jsMapDelete StateManager.redoHistoryProp roomId with
    | .error e => (sys₁, some e)
    | .ok _ => (sys₁, none)

/-- The per-room states reachable from the state of a fresh room by the
documented server operations: stroke submission, undo, redo, the two
clearRedoHistory variants, and the per-user clear-canvas handler. -/
inductive Reachable : RoomState → Prop where
  | empty : Reachable RoomState.empty
  | stroke (room : RoomState) (u : String) (input : StrokeInput) (id : String)
      (now : Nat) : Reachable room → Reachable (handleStroke room u input id now)
  | undo (room : RoomState) (u : String) :
      Reachable room → Reachable (StateManager.undo room u).1
  | redo (room : RoomState) (u : String) :
      Reachable room → Reachable (StateManager.redo room u).1
  | clearUser (room : RoomState) (u : String) :
      Reachable room → Reachable (StateManager.clearRedoHistoryUser room u)
  | clearRoom (room : RoomState) :
      Reachable room → Reachable (StateManager.clearRedoHistoryRoom room)
  | clearCanvas (room : RoomState) (pu su : String) :
      Reachable room → Reachable (clearCanvasUser room pu su)

theorem setStacks_same (f : String → UserStacks) (u : String) (st : UserStacks) :
    setStacks f u st u = st := by
  simp [setStacks]

theorem setStacks_other (f : String → UserStacks) (u : String) (st : UserStacks)
    (v : String) (h : v ≠ u) : setStacks f u st v = f v := by
  simp [setStacks, h]

theorem removeLastByUser_eq_none_iff (u : String) (l : List Stroke) :
    removeLastByUser u l = none ↔ ∀ s ∈ l, s.userId ≠ u := by
  induction l with
  | nil => simp [removeLastByUser]
  | cons s rest ih =>
    constructor
    · intro h x hx
      unfold removeLastByUser at h
      cases hrec : removeLastByUser u rest with
      | some p => rw [hrec] at h; cases h
      | none =>
        rw [hrec] at h
        by_cases hs : s.userId = u
        · rw [if_pos hs] at h; cases h
        · rcases List.mem_cons.mp hx with hx | hx
          · rw [hx]; exact hs
          · exact ih.mp hrec x hx
    · intro hall
      have hrest : removeLastByUser u rest = none :=
        ih.mpr fun x hx => hall x (List.mem_cons_of_mem _ hx)
      unfold removeLastByUser
      rw [hrest, if_neg (hall s (List.mem_cons_self _ _))]

theorem removeLastByUser_author (u : String) :
    ∀ (l l₁ : List Stroke) (s : Stroke),
      removeLastByUser u l = some (l₁, s) → s.userId = u := by
  intro l
  induction l with
  | nil => intro l₁ s h; cases h
  | cons a rest ih =>
    intro l₁ s h
    unfold removeLastByUser at h
    cases hrec : removeLastByUser u rest with
    | some p =>
      obtain ⟨p₁, p₂⟩ := p
      rw [hrec] at h
      have hpair := Option.some.inj h
      have hs : p₂ = s := congrArg Prod.snd hpair
      exact hs ▸ ih p₁ p₂ hrec
    | none =>
      rw [hrec] at h
      by_cases ha : a.userId = u
      · rw [if_pos ha] at h; cases h; exact ha
      · rw [if_neg ha] at h; cases h

theorem removeLastByUser_split (u : String) (st : Stroke) (hst : st.userId = u)
    (l₂ : List Stroke) (h₂ : ∀ x ∈ l₂, x.userId ≠ u) :
    ∀ l₁ : List Stroke, removeLastByUser u (l₁ ++ st :: l₂) = some (l₁ ++ l₂, st) := by
  intro l₁
  induction l₁ with
  | nil =>
    simp only [List.nil_append]
    unfold removeLastByUser
    rw [(removeLastByUser_eq_none_iff u l₂).mpr h₂, if_pos hst]
  | cons a l₁ ih =>
    simp only [List.cons_append]
    unfold removeLastByUser
    rw [ih]

theorem handleStroke_userStacks_other (room : RoomState) (u : String)
    (input : StrokeInput) (id : String) (now : Nat) (p : String) (h : u ≠ p) :
    (handleStroke room u input id now).userStacks p = room.userStacks p := by
  simp [handleStroke, StateManager.clearRedoHistoryUser, setStacks, Ne.symm h]

/-- One stroke submission observed by a room: the submitting user, the
accepted payload, the generated id and the clock reading. -/
structure AppendEvent where
  userId : String
  input : StrokeInput
  id : String
  now : Nat

/-- A sequence of stroke submissions applied in order through the server
stroke handler. -/
def applyAppends (room : RoomState) (evts : List AppendEvent) : RoomState :=
  evts.foldl (fun r e => handleStroke r e.userId e.input e.id e.now) room

theorem applyAppends_userStacks_other (p : String) :
    ∀ (evts : List AppendEvent) (room : RoomState),
      (∀ e ∈ evts, e.userId ≠ p) →
      (applyAppends room evts).userStacks p = room.userStacks p := by
  intro evts
  induction evts with
  | nil => intro room _; rfl
  | cons e rest ih =>
    intro room h
    have hstep : applyAppends room (e :: rest)
        = applyAppends (handleStroke room e.userId e.input e.id e.now) rest := rfl
    rw [hstep, ih _ fun x hx => h x (List.mem_cons_of_mem _ hx)]
    exact handleStroke_userStacks_other room e.userId e.input e.id e.now p
      (h e (List.mem_cons_self _ _))

theorem undo_pushes_removed (room : RoomState) (p : String) (st : Stroke)
    (h : (StateManager.undo room p).2 = some st) :
    ((StateManager.undo room p).1.userStacks p).undoStack
      = (room.userStacks p).undoStack ++ [st] := by
  unfold StateManager.undo at h ⊢
  cases hrm : removeLastByUser p room.strokes with
  | none => rw [hrm] at h; cases h
  | some pr =>
    obtain ⟨l, removed⟩ := pr
    rw [hrm] at h
    have hr : removed = st := Option.some.inj h
    simp [setStacks, hr]

/-- The acceptance test the per-point loop applies to a single point value:
its x and y properties are numbers and both lie in [-10000, 10000]. -/
def goodPoint (p : JSVal) : Bool :=
  match p.getProp "x", p.getProp "y" with
  | some (.vNum x), some (.vNum y) =>
    !(x < -10000 || x > 10000 || y < -10000 || y > 10000)
  | _, _ => false

theorem goodPoint_ne_null_undef (p : JSVal) (h : goodPoint p = true) :
    p ≠ JSVal.vNull ∧ p ≠ JSVal.vUndefined := by
  constructor <;> rintro rfl <;> simp [goodPoint, JSVal.getProp] at h

theorem getProp_isSome (p : JSVal) (k : String) (h₁ : p ≠ JSVal.vNull)
    (h₂ : p ≠ JSVal.vUndefined) : ∃ v, p.getProp k = some v := by
  cases p with
  | vNull => exact absurd rfl h₁
  | vUndefined => exact absurd rfl h₂
  | vBool b => exact ⟨_, rfl⟩
  | vNum n => exact ⟨_, rfl⟩
  | vStr s => exact ⟨_, rfl⟩
  | vObj fields => exact ⟨_, rfl⟩
  | vArr elems => exact ⟨_, rfl⟩

theorem validatePoints_eq_all (ps : List JSVal)
    (h : ∀ p ∈ ps, p ≠ JSVal.vNull ∧ p ≠ JSVal.vUndefined) :
    validatePoints ps = some (ps.all goodPoint) := by
  induction ps with
  | nil => rfl
  | cons p ps ih =>
    obtain ⟨hn, hu⟩ := h p (List.mem_cons_self _ _)
    have hrest := ih fun x hx => h x (List.mem_cons_of_mem _ hx)
    obtain ⟨px, hx⟩ := getProp_isSome p "x" hn hu
    obtain ⟨py, hy⟩ := getProp_isSome p "y" hn hu
    unfold validatePoints
    rw [hx]
    cases px with
    | vNum x =>
      rw [hy]
      cases py with
      | vNum y =>
        have hg : goodPoint p
            = !(x < -10000 || x > 10000 || y < -10000 || y > 10000) := by
          unfold goodPoint; rw [hx, hy]
        rw [List.all_cons, hg]
        cases hcond : (x < -10000 || x > 10000 || y < -10000 || y > 10000) with
        | true => simp [hcond]
        | false => simp [hcond, hrest]
      | vNull => simp [goodPoint, hx, hy, List.all_cons]
      | vUndefined => simp [goodPoint, hx, hy, List.all_cons]
      | vBool b => simp [goodPoint, hx, hy, List.all_cons]
      | vStr s => simp [goodPoint, hx, hy, List.all_cons]
      | vObj fields => simp [goodPoint, hx, hy, List.all_cons]
      | vArr elems => simp [goodPoint, hx, hy, List.all_cons]
    | vNull => simp [goodPoint, hx, hy, List.all_cons]
    | vUndefined => simp [goodPoint, hx, hy, List.all_cons]
    | vBool b => simp [goodPoint, hx, hy, List.all_cons]
    | vStr s => simp [goodPoint, hx, hy, List.all_cons]
    | vObj fields => simp [goodPoint, hx, hy, List.all_cons]
    | vArr elems => simp [goodPoint, hx, hy, List.all_cons]

/-- C3 (amended): validateStroke accepts every object candidate with a
truthy (for example non-empty string) color, a positive numeric width and a
non-empty array of points whose x and y properties are numbers inside
[-10000, 10000]; it rejects every candidate that is not an object record,
every object whose color is missing or the empty string, whose width is
missing or the number zero (a negative numeric width is accepted, not
rejected), whose points property is missing, not an array or an empty
array, and every candidate whose points array contains an element, itself
neither null nor undefined, that fails the numeric-and-bounded test on x
and y. -/
theorem validateStroke_characterization :
    (∀ (fields : List (String × JSVal)) (c : String) (w : Int) (elems : List JSVal),
       (JSVal.vObj fields).getProp "color" = some (.vStr c) → c ≠ "" →
       (JSVal.vObj fields).getProp "width" = some (.vNum w) → 0 < w →
       (JSVal.vObj fields).getProp "points" = some (.vArr elems) → elems ≠ [] →
       (∀ p ∈ elems, goodPoint p = true) →
       validateStroke (.vObj fields) = some true) ∧
    (∀ S : JSVal, (∀ fields, S ≠ .vObj fields) → validateStroke S = some false) ∧
    (∀ (fields : List (String × JSVal)) (cv : JSVal),
       (JSVal.vObj fields).getProp "color" = some cv →
       (cv = .vUndefined ∨ cv = .vStr "") →
       validateStroke (.vObj fields) = some false) ∧
    (∀ (fields : List (String × JSVal)) (wv : JSVal),
       (JSVal.vObj fields).getProp "width" = some wv →
       (wv = .vUndefined ∨ wv = .vNum 0) →
       validateStroke (.vObj fields) = some false) ∧
    (∀ (fields : List (String × JSVal)) (pv : JSVal),
       (JSVal.vObj fields).getProp "points" = some pv →
       (pv.isArray = false ∨ pv = .vArr []) →
       validateStroke (.vObj fields) = some false) ∧
    (∀ (fields : List (String × JSVal)) (elems : List JSVal),
       (JSVal.vObj fields).getProp "points" = some (.vArr elems) →
       (∀ p ∈ elems, p ≠ .vNull ∧ p ≠ .vUndefined) →
       (∃ p ∈ elems, goodPoint p = false) →
       validateStroke (.vObj fields) = some false) := by
  refine ⟨?_, ?_, ?_, ?_, ?_, ?_⟩
  · intro fields c w elems hc hcne hw hwpos hp hpne hgood
    have hnn : ∀ p ∈ elems, p ≠ JSVal.vNull ∧ p ≠ JSVal.vUndefined :=
      fun p hp => goodPoint_ne_null_undef p (hgood p hp)
    have hall : elems.all goodPoint = true := List.all_eq_true.mpr hgood
    have hlen : (elems.length == 0) = false := by
      cases elems with
      | nil => exact absurd rfl hpne
      | cons a l => rfl
    unfold validateStroke
    rw [hc, hw, hp]
    simp only [JSVal.truthy, JSVal.typeofStr, JSVal.isArray, Bool.not_true,
      Bool.not_false, bne_self_eq_false, Bool.false_or, Bool.or_false]
    rw [validatePoints_eq_all elems hnn, hall]
    simp [hcne, show w ≠ 0 from Int.ne_of_gt hwpos, hlen]
  · intro S hS
    cases S with
    | vNull => rfl
    | vUndefined => rfl
    | vBool b => cases b <;> rfl
    | vNum n =>
      by_cases hn : n = 0
      · subst hn; rfl
      · simp [validateStroke, JSVal.truthy, JSVal.typeofStr, hn]
    | vStr s =>
      by_cases hs : s = ""
      · subst hs; rfl
      · simp [validateStroke, JSVal.truthy, JSVal.typeofStr, hs]
    | vObj fields => exact absurd rfl (hS fields)
    | vArr elems => simp [validateStroke, JSVal.truthy, JSVal.typeofStr, JSVal.getProp]
  · intro fields cv hc hcv
    obtain ⟨wv, hw⟩ : ∃ v, (JSVal.vObj fields).getProp "width" = some v := ⟨_, rfl⟩
    obtain ⟨pv, hp⟩ : ∃ v, (JSVal.vObj fields).getProp "points" = some v := ⟨_, rfl⟩
    unfold validateStroke
    rw [hc, hw, hp]
    rcases hcv with rfl | rfl <;> simp [JSVal.truthy, JSVal.typeofStr]
  · intro fields wv hw hwv
    obtain ⟨cv, hc⟩ : ∃ v, (JSVal.vObj fields).getProp "color" = some v := ⟨_, rfl⟩
    obtain ⟨pv, hp⟩ : ∃ v, (JSVal.vObj fields).getProp "points" = some v := ⟨_, rfl⟩
    unfold validateStroke
    rw [hc, hw, hp]
    rcases hwv with rfl | rfl <;> simp [JSVal.truthy, JSVal.typeofStr]
  · intro fields pv hp hpv
    obtain ⟨cv, hc⟩ : ∃ v, (JSVal.vObj fields).getProp "color" = some v := ⟨_, rfl⟩
    obtain ⟨wv, hw⟩ : ∃ v, (JSVal.vObj fields).getProp "width" = some v := ⟨_, rfl⟩
    unfold validateStroke
    rw [hc, hw, hp]
    rcases hpv with hna | rfl
    · simp [JSVal.typeofStr, hna]
    · by_cases hcw : (!cv.truthy || !wv.truthy) = true
      · simp [JSVal.truthy, JSVal.typeofStr, hcw]
      · simp [JSVal.truthy, JSVal.typeofStr, JSVal.isArray, hcw]
  · intro fields elems hp hnn hbad
    obtain ⟨cv, hc⟩ : ∃ v, (JSVal.vObj fields).getProp "color" = some v := ⟨_, rfl⟩
    obtain ⟨wv, hw⟩ : ∃ v, (JSVal.vObj fields).getProp "width" = some v := ⟨_, rfl⟩
    have hall : elems.all goodPoint = false := by
      obtain ⟨p, hpmem, hpf⟩ := hbad
      rcases hx : elems.all goodPoint with _ | _
      · rfl
      · exact absurd (List.all_eq_true.mp hx p hpmem) (by simp [hpf])
    have hlen : (elems.length == 0) = false := by
      obtain ⟨p, hpmem, _⟩ := hbad
      cases elems with
      | nil => cases hpmem
      | cons a l => rfl
    unfold validateStroke
    rw [hc, hw, hp]
    simp only [JSVal.typeofStr, bne_self_eq_false, Bool.not_false, if_true,
      Bool.not_eq_true']
    split
    · rfl
    · simp [hlen, validatePoints_eq_all elems hnn, hall]

/-- Field list of a candidate with non-empty color, negative numeric width
and one in-bounds point. -/
def negWidthFields : List (String × JSVal) :=
  [("color", .vStr "red"), ("width", .vNum (-5)),
   ("points", .vArr [.vObj [("x", .vNum 0), ("y", .vNum 0)]])]

/-- The negative-width candidate itself. -/
def negWidthStroke : JSVal := .vObj negWidthFields

/-- C3 counterexample: the claim requires validateStroke to reject every
candidate whose width is non-positive, but the code only rejects a falsy
width, so the candidate with width -5 (non-positive, yet truthy) and
otherwise valid fields is accepted. -/
theorem validateStroke_negative_width_accepted :
    validateStroke negWidthStroke = some true ∧
    validateStroke negWidthStroke ≠ some false := by
  constructor
  · rfl
  · decide

/-- Field list of a fully valid candidate. -/
def okFields : List (String × JSVal) :=
  [("color", .vStr "blue"), ("width", .vNum 2),
   ("points", .vArr [.vObj [("x", .vNum 10), ("y", .vNum (-10))]])]

/-- Field list of a candidate whose width is the falsy number zero. -/
def zeroWidthFields : List (String × JSVal) :=
  [("color", .vStr "blue"), ("width", .vNum 0),
   ("points", .vArr [.vObj [("x", .vNum 1), ("y", .vNum 1)]])]

/-- Witness for the amended C3 characterization: a concrete valid candidate
is accepted and a concrete zero-width candidate is rejected. -/
theorem validateStroke_characterization_witness :
    validateStroke (.vObj okFields) = some true ∧
    validateStroke (.vObj zeroWidthFields) = some false :=
  ⟨validateStroke_characterization.1 okFields "blue" 2
      [.vObj [("x", .vNum 10), ("y", .vNum (-10))]]
      rfl (by decide) rfl (by decide) rfl (List.cons_ne_nil _ _) (by decide),
   validateStroke_characterization.2.2.2.1 zeroWidthFields (.vNum 0) rfl (Or.inr rfl)⟩

/-- A concrete stroke by user A. -/
def wStrokeA : Stroke := ⟨"a1", "A", "red", 3, [(0, 0)], 1⟩

/-- A concrete stroke by user B, appended after the stroke of A. -/
def wStrokeB : Stroke := ⟨"b1", "B", "blue", 2, [(1, 1)], 2⟩

/-- A concrete room holding one stroke of A followed by one stroke of B,
with empty undo histories. -/
def wRoom : RoomState := ⟨[wStrokeA, wStrokeB], fun _ => UserStacks.empty⟩

/-- C1: when the room log splits as earlier strokes, the last stroke
authored by p, and a suffix containing no stroke of p, undo for p removes
exactly that stroke: the result carries it, the log becomes the
concatenation of the untouched earlier and later strokes of everyone else,
it is pushed on the undo stack of p, and the stacks of every other
participant are unchanged. -/
theorem undo_removes_last_own_stroke (room : RoomState) (p : String)
    (l₁ l₂ : List Stroke) (st : Stroke)
    (hsplit : room.strokes = l₁ ++ st :: l₂) (hown : st.userId = p)
    (hafter : ∀ x ∈ l₂, x.userId ≠ p) :
    (StateManager.undo room p).2 = some st ∧
    (StateManager.undo room p).1.strokes = l₁ ++ l₂ ∧
    ((StateManager.undo room p).1.userStacks p).undoStack
      = (room.userStacks p).undoStack ++ [st] ∧
    ∀ q, q ≠ p → (StateManager.undo room p).1.userStacks q = room.userStacks q := by
  have hrm : removeLastByUser p room.strokes = some (l₁ ++ l₂, st) := by
    rw [hsplit]; exact removeLastByUser_split p st hown l₂ hafter l₁
  unfold StateManager.undo
  rw [hrm]
  refine ⟨rfl, rfl, ?_, ?_⟩
  · simp [setStacks]
  · intro q hq
    simp [setStacks, hq]

/-- Witness for C1 at the concrete two-author room: undo for A removes the
stroke of A, keeps the stroke of B, pushes the removed stroke on the stack
of A and leaves the stack of B unchanged. -/
theorem undo_removes_last_own_stroke_witness :
    (StateManager.undo wRoom "A").2 = some wStrokeA ∧
    (StateManager.undo wRoom "A").1.strokes = [wStrokeB] ∧
    ((StateManager.undo wRoom "A").1.userStacks "A").undoStack = [wStrokeA] ∧
    (StateManager.undo wRoom "A").1.userStacks "B" = wRoom.userStacks "B" :=
  (fun h => ⟨h.1, h.2.1, h.2.2.1, h.2.2.2 "B" (by decide)⟩)
    (undo_removes_last_own_stroke wRoom "A" [] [wStrokeB] wStrokeA rfl rfl (by decide))

theorem getLast?_append_one (l : List Stroke) (a : Stroke) :
    (l ++ [a]).getLast? = some a := by
  induction l with
  | nil => rfl
  | cons x l ih =>
    cases l with
    | nil => rfl
    | cons y l => simpa using ih

/-- C2: whenever undo for p succeeds and removes stroke st, a redo for p
issued after any sequence of stroke submissions by other participants
returns the very same stroke value st (same id, author and timestamp, not a
restamped copy) and appends it at the end of the then-current log. -/
theorem undo_redo_cancelling_pair (room : RoomState) (p : String) (st : Stroke)
    (hundo : (StateManager.undo room p).2 = some st)
    (evts : List AppendEvent) (hothers : ∀ e ∈ evts, e.userId ≠ p) :
    (StateManager.redo (applyAppends (StateManager.undo room p).1 evts) p).2 = some st ∧
    (StateManager.redo (applyAppends (StateManager.undo room p).1 evts) p).1.strokes
      = (applyAppends (StateManager.undo room p).1 evts).strokes ++ [st] := by
  have hstack :
      ((applyAppends (StateManager.undo room p).1 evts).userStacks p).undoStack
        = (room.userStacks p).undoStack ++ [st] := by
    rw [applyAppends_userStacks_other p evts _ hothers]
    exact undo_pushes_removed room p st hundo
  simp only [StateManager.redo, hstack, getLast?_append_one]
  exact ⟨trivial, trivial⟩

/-- A stroke submission by user B used as interleaved activity. -/
def wEvtB : AppendEvent := ⟨"B", ⟨"green", 1, [(2, 2)]⟩, "b2", 3⟩

/-- Witness for C2: undo by A, a submission by B in between, then redo by
A restores exactly the undone stroke of A at the end of the log. -/
theorem undo_redo_cancelling_pair_witness :
    (StateManager.redo (applyAppends (StateManager.undo wRoom "A").1 [wEvtB]) "A").2
      = some wStrokeA ∧
    (StateManager.redo (applyAppends (StateManager.undo wRoom "A").1 [wEvtB]) "A").1.strokes
      = (applyAppends (StateManager.undo wRoom "A").1 [wEvtB]).strokes ++ [wStrokeA] :=
  undo_redo_cancelling_pair wRoom "A" wStrokeA (by decide) [wEvtB] (by decide)

/-- C4: canUserUndo is true exactly when the current log holds at least one
stroke authored by the participant. -/
theorem canUndo_iff_own_stroke (room : RoomState) (p : String) :
    StateManager.canUserUndo room p = true ↔ ∃ s ∈ room.strokes, s.userId = p := by
  simp [StateManager.canUserUndo, List.any_eq_true, beq_iff_eq]

/-- C5: undo for a participant with no stroke in the log, and redo for a
participant with an empty undo stack, both return an absent result and
leave the whole room state (log and every undo stack) unchanged. -/
theorem undo_redo_noop (room : RoomState) (p : String) :
    ((∀ s ∈ room.strokes, s.userId ≠ p) → StateManager.undo room p = (room, none)) ∧
    ((room.userStacks p).undoStack = [] → StateManager.redo room p = (room, none)) := by
  constructor
  · intro h
    unfold StateManager.undo
    rw [(removeLastByUser_eq_none_iff p room.strokes).mpr h]
  · intro h
    simp [StateManager.redo, h]

/-- Witness for C5 at the concrete room: participant C has no strokes and
no undo history, so both operations are no-ops there. -/
theorem undo_redo_noop_witness :
    StateManager.undo wRoom "C" = (wRoom, none) ∧
    StateManager.redo wRoom "C" = (wRoom, none) :=
  ⟨(undo_redo_noop wRoom "C").1 (by decide), (undo_redo_noop wRoom "C").2 rfl⟩

/-- C6: a stroke submission by p resets the stacks entry of p to empty (so
canUserRedo for p is false afterwards), appends exactly the stamped stroke
to the log, and leaves the stacks of every other participant unchanged; in
particular this holds for the state reached right after an undo by p. -/
theorem submit_clears_redo_availability (room : RoomState) (p : String)
    (input : StrokeInput) (id : String) (now : Nat) :
    (handleStroke room p input id now).userStacks p = UserStacks.empty ∧
    StateManager.canUserRedo (handleStroke room p input id now) p = false ∧
    (handleStroke room p input id now).strokes
      = room.strokes ++ [stampStroke input p id now] ∧
    ∀ q, q ≠ p → (handleStroke room p input id now).userStacks q = room.userStacks q := by
  refine ⟨?_, ?_, rfl, ?_⟩
  · simp [handleStroke, StateManager.clearRedoHistoryUser, setStacks]
  · simp [StateManager.canUserRedo, handleStroke, StateManager.clearRedoHistoryUser,
      setStacks, UserStacks.empty]
  · intro q hq
    simp [handleStroke, StateManager.clearRedoHistoryUser, setStacks, hq]

/-- Witness for C6 at the concrete room: after a submission by A, the
stacks entry of A is empty, redo for A is unavailable, the log grew by the
stamped stroke, and the entry of B is unchanged. -/
theorem submit_clears_redo_availability_witness :
    (handleStroke wRoom "A" ⟨"red", 3, [(0, 0)]⟩ "a2" 4).userStacks "A" = UserStacks.empty ∧
    StateManager.canUserRedo (handleStroke wRoom "A" ⟨"red", 3, [(0, 0)]⟩ "a2" 4) "A" = false ∧
    (handleStroke wRoom "A" ⟨"red", 3, [(0, 0)]⟩ "a2" 4).strokes
      = wRoom.strokes ++ [stampStroke ⟨"red", 3, [(0, 0)]⟩ "A" "a2" 4] ∧
    (handleStroke wRoom "A" ⟨"red", 3, [(0, 0)]⟩ "a2" 4).userStacks "B"
      = wRoom.userStacks "B" :=
  (fun h => ⟨h.1, h.2.1, h.2.2.1, h.2.2.2 "B" (by decide)⟩)
    (submit_clears_redo_availability wRoom "A" ⟨"red", 3, [(0, 0)]⟩ "a2" 4)

/-- C9: in every per-room state reachable from a fresh room by the
documented operations, every stroke stored on the undo stack of a
participant was authored by that participant. -/
theorem undo_stack_owns_strokes (room : RoomState) (h : Reachable room) :
    ∀ p : String, ∀ s ∈ (room.userStacks p).undoStack, s.userId = p := by
  induction h with
  | empty =>
    intro p s hs
    simp [RoomState.empty, UserStacks.empty] at hs
  | stroke r u input id now _ ih =>
    intro p s hs
    by_cases hp : p = u
    · subst hp
      simp [handleStroke, StateManager.clearRedoHistoryUser, setStacks,
        UserStacks.empty] at hs
    · rw [handleStroke_userStacks_other r u input id now p fun h => hp h.symm] at hs
      exact ih p s hs
  | undo r u _ ih =>
    intro p s hs
    unfold StateManager.undo at hs
    cases hrm : removeLastByUser u r.strokes with
    | none =>
      rw [hrm] at hs
      exact ih p s hs
    | some pr =>
      obtain ⟨l, removed⟩ := pr
      rw [hrm] at hs
      by_cases hp : p = u
      · subst hp
        rw [show ((match some (l, removed) with
            | none => (r, none)
            | some (strokes₁, removed) =>
              ({ strokes := strokes₁,
                 userStacks := setStacks r.userStacks p
                   { r.userStacks p with
                     undoStack := (r.userStacks p).undoStack ++ [removed] } },
               some removed) : RoomState × Option Stroke)).1.userStacks p
            = { r.userStacks p with
                undoStack := (r.userStacks p).undoStack ++ [removed] }
          from by simp [setStacks]] at hs
        rcases List.mem_append.mp hs with h₁ | h₁
        · exact ih p s h₁
        · rw [List.mem_singleton.mp h₁]
          exact removeLastByUser_author p r.strokes l removed hrm
      · rw [show ((match some (l, removed) with
            | none => (r, none)
            | some (strokes₁, removed) =>
              ({ strokes := strokes₁,
                 userStacks := setStacks r.userStacks u
                   { r.userStacks u with
                     undoStack := (r.userStacks u).undoStack ++ [removed] } },
               some removed) : RoomState × Option Stroke)).1.userStacks p
            = r.userStacks p from by simp [setStacks, hp]] at hs
        exact ih p s hs
  | redo r u _ ih =>
    intro p s hs
    simp only [StateManager.redo] at hs
    cases hg : ((r.userStacks u).undoStack).getLast? with
    | none =>
      rw [hg] at hs
      exact ih p s hs
    | some stroke =>
      rw [hg] at hs
      by_cases hp : p = u
      · subst hp
        simp only [setStacks, if_pos rfl] at hs
        exact ih p s (List.mem_of_mem_dropLast hs)
      · simp only [setStacks, if_neg hp] at hs
        exact ih p s hs
  | clearUser r u _ ih =>
    intro p s hs
    by_cases hp : p = u
    · subst hp
      simp [StateManager.clearRedoHistoryUser, setStacks, UserStacks.empty] at hs
    · rw [show (StateManager.clearRedoHistoryUser r u).userStacks p = r.userStacks p
        from setStacks_other r.userStacks u _ p hp] at hs
      exact ih p s hs
  | clearRoom r _ _ =>
    intro p s hs
    simp [StateManager.clearRedoHistoryRoom, UserStacks.empty] at hs
  | clearCanvas r pu su _ ih =>
    intro p s hs
    by_cases hp : p = su
    · subst hp
      simp [clearCanvasUser, StateManager.clearRedoHistoryUser, setStacks,
        UserStacks.empty] at hs
    · rw [show (clearCanvasUser r pu su).userStacks p
          = r.userStacks p from setStacks_other _ su _ p hp] at hs
      exact ih p s hs

/-- Witness for C9: the state reached by one submission of A followed by
one undo of A is reachable, and the stroke found on the undo stack of A
there is authored by A. -/
theorem undo_stack_owns_strokes_witness :
    (stampStroke ⟨"red", 3, [(0, 0)]⟩ "A" "a1" 1).userId = "A" :=
  undo_stack_owns_strokes
    (StateManager.undo (handleStroke RoomState.empty "A" ⟨"red", 3, [(0, 0)]⟩ "a1" 1) "A").1
    (Reachable.undo _ "A"
      (Reachable.stroke RoomState.empty "A" ⟨"red", 3, [(0, 0)]⟩ "a1" 1 Reachable.empty))
    "A" (stampStroke ⟨"red", 3, [(0, 0)]⟩ "A" "a1" 1) (by decide)

/-- C7: the empty-room cleanup is a deferred re-check with a fixed
5-minute grace period: removeUser on an existing room schedules the
one-shot check with delay CLEANUP_DELAY_MS exactly when the membership it
leaves behind is empty; removeUser on an unknown room changes nothing and
schedules nothing; the check re-reads membership at fire time, leaving the
registry untouched when the room has regained a member and deleting the
entry only when it is still empty; and a later getRoom for a deleted id
allocates a fresh empty room. -/
theorem eviction_grace_and_recheck :
    CLEANUP_DELAY_MS = 300000 ∧
    (∀ (rooms : Registry) (roomId userId : String) (room : Room),
       rooms roomId = some room →
       (RoomManager.removeUser rooms roomId userId).2 =
         (if (room.users.filter (fun u => u ≠ userId)).isEmpty
          then some CLEANUP_DELAY_MS else none)) ∧
    (∀ (rooms : Registry) (roomId userId : String),
       rooms roomId = none →
       RoomManager.removeUser rooms roomId userId = (rooms, none)) ∧
    (∀ (rooms : Registry) (roomId : String) (room : Room),
       rooms roomId = some room → room.users ≠ [] →
       RoomManager.evictionCheck rooms roomId = rooms) ∧
    (∀ (rooms : Registry) (roomId : String) (room : Room),
       rooms roomId = some room → room.users = [] →
       (RoomManager.evictionCheck rooms roomId) roomId = none) ∧
    (∀ (rooms : Registry) (roomId : String) (now : Nat),
       rooms roomId = none →
       (RoomManager.getRoom rooms roomId now).2 = freshRoom roomId now) := by
  refine ⟨rfl, ?_, ?_, ?_, ?_, ?_⟩
  · intro rooms roomId userId room h
    simp only [RoomManager.removeUser, h]
    cases hb : (room.users.filter (fun u => u ≠ userId)).isEmpty <;> simp [hb]
  · intro rooms roomId userId h
    simp [RoomManager.removeUser, h]
  · intro rooms roomId room h hne
    have hb : room.users.isEmpty = false := by
      cases hu : room.users with
      | nil => exact absurd hu hne
      | cons a l => rfl
    simp [RoomManager.evictionCheck, h, hb]
  · intro rooms roomId room h he
    simp [RoomManager.evictionCheck, h, he, deleteRoom]
  · intro rooms roomId now h
    simp [RoomManager.getRoom, h]

/-- A room with one member A, as stored in the registry. -/
def wRoomWithA : Room := { freshRoom "r" 0 with users := ["A"] }

/-- Registry holding the single room r with member A. -/
def wReg1 : Registry := setRoom Registry.empty "r" wRoomWithA

/-- Registry holding the single room r with no members. -/
def wReg2 : Registry := setRoom Registry.empty "r" (freshRoom "r" 0)

/-- Witness for C7: removing the last member schedules the grace-period
check, removing a user of an unknown room schedules nothing, the fired
check spares the member-holding room and deletes the empty one, and getRoom
on a missing id yields a fresh empty room. -/
theorem eviction_grace_and_recheck_witness :
    (RoomManager.removeUser wReg1 "r" "A").2 = some CLEANUP_DELAY_MS ∧
    RoomManager.removeUser wReg1 "q" "A" = (wReg1, none) ∧
    RoomManager.evictionCheck wReg1 "r" = wReg1 ∧
    (RoomManager.evictionCheck wReg2 "r") "r" = none ∧
    (RoomManager.getRoom Registry.empty "r" 5).2 = freshRoom "r" 5 := by
  refine ⟨?_, ?_, ?_, ?_, ?_⟩
  · rw [eviction_grace_and_recheck.2.1 wReg1 "r" "A" wRoomWithA rfl]
    rfl
  · exact eviction_grace_and_recheck.2.2.1 wReg1 "q" "A" rfl
  · exact eviction_grace_and_recheck.2.2.2.1 wReg1 "r" wRoomWithA rfl (by decide)
  · exact eviction_grace_and_recheck.2.2.2.2.1 wReg2 "r" (freshRoom "r" 0) rfl rfl
  · exact eviction_grace_and_recheck.2.2.2.2.2 Registry.empty "r" 5 rfl

/-- The payload submitted in the room-destruction scenario. -/
def evInput : StrokeInput := ⟨"red", 3, [(1, 2)]⟩

/-- The server stroke handler at system level: clear the redo history entry
of the submitting user for this room, then append the stamped stroke
through RoomManager.addStroke. -/
def serverStroke (sys : ServerState) (roomId userId : String) (input : StrokeInput)
    (id : String) (now : Nat) : ServerState :=
  { rooms := (RoomManager.addStroke sys.rooms roomId input userId id now).1,
    userStacks := fun rid =>
      if rid = roomId then setStacks (sys.userStacks rid) userId UserStacks.empty
      else sys.userStacks rid }

/-- User A joins room r on a fresh server. -/
def c8join : ServerState :=
  { ServerState.empty with
    rooms := RoomManager.addUser ServerState.empty.rooms "r" "A" 0 }

/-- A submits one stroke. -/
def c8draw : ServerState := serverStroke c8join "r" "A" evInput "a1" 5

/-- A undoes the stroke, leaving it on the undo stack of A. -/
def c8undone : ServerState := (serverUndo c8draw "r" "A" 6).1

/-- A disconnects; the room becomes memberless and the check is scheduled. -/
def c8left : ServerState :=
  { c8undone with rooms := (RoomManager.removeUser c8undone.rooms "r" "A").1 }

/-- The eviction check fires with nobody rejoined. -/
def c8fired : ServerState := serverEvictionCheck c8left "r"

/-- C8 counterexample: after the eviction check destroys room r, the undo
stack of participant A for room id r still holds the undone stroke; the
per-participant undo/redo state is not dropped with the room. -/
theorem room_destruction_keeps_stacks_cex :
    (c8fired.rooms "r").isNone = true ∧
    (c8fired.userStacks "r" "A").undoStack = [stampStroke evInput "A" "a1" 5] := by
  exact ⟨rfl, rfl⟩

/-- C8 (amended): when the eviction check fires on a room whose membership
is still empty, the registry entry of the room (its log, cursors and
membership) is deleted, but the per-participant undo/redo state held in the
StateManager userStacks map is left entirely unchanged; room destruction
does not drop undo stacks. -/
theorem eviction_deletes_room_but_keeps_stacks (sys : ServerState) (roomId : String)
    (room : Room) (h : sys.rooms roomId = some room) (hempty : room.users = []) :
    (serverEvictionCheck sys roomId).rooms roomId = none ∧
    (serverEvictionCheck sys roomId).userStacks = sys.userStacks := by
  constructor
  · simp [serverEvictionCheck, RoomManager.evictionCheck, h, hempty, deleteRoom]
  · rfl

/-- A server holding the memberless room r and a non-empty undo stack. -/
def c8wSys : ServerState :=
  { rooms := wReg2, userStacks := fun _ _ => ⟨[wStrokeA], []⟩ }

/-- Witness for the amended C8 statement at a concrete server state. -/
theorem eviction_deletes_room_but_keeps_stacks_witness :
    (serverEvictionCheck c8wSys "r").rooms "r" = none ∧
    (serverEvictionCheck c8wSys "r").userStacks = c8wSys.userStacks :=
  eviction_deletes_room_but_keeps_stacks c8wSys "r" (freshRoom "r" 0) rfl rfl

/-- C10: on the userStacks-based StateManager, clearRoomState first empties
the stroke log of the room (creating the room when absent) and then throws
a TypeError by calling delete on the never-initialized undoHistory
property; the reset never completes and the userStacks map is never
cleared. -/
theorem clearRoomState_always_throws (sys : ServerState) (roomId : String) (now : Nat) :
    (StateManager.clearRoomState sys roomId now).2 = some JsError.typeError ∧
    roomStrokes (StateManager.clearRoomState sys roomId now).1.rooms roomId = [] ∧
    (StateManager.clearRoomState sys roomId now).1.userStacks = sys.userStacks := by
  refine ⟨rfl, ?_, rfl⟩
  simp [StateManager.clearRoomState, roomStrokes, setRoom, jsMapDelete,
    StateManager.undoHistoryProp]
